import Mathlib

/-!  Shallow embedding of `src/mm.c`: a segregated-freelist allocator with
boundary tags and footer elision.

Memory is modelled as a word store with finite support over a zero-filled
region (memlib hands out fresh zero pages): `rd m a` is the 64-bit word whose
first byte lives at byte address `a`.  Every word access performed by the
source is at an 8-aligned address, so distinct keys denote disjoint words.
Pointer and `size_t` arithmetic wraps modulo `2^64` exactly as in the
compiled code.  The null pointer is the address `0`.

The lower-level primitives `mm_sbrk`, `mem_memcpy` and `mem_memset` come from
`memlib`, which is not part of `src/`; they are modelled from the spec (§6.1).

Loops of the source that are not structurally bounded (the first-fit walk of a
free list, `malloc`'s retry recursion, `mm_init`'s alignment probe) take a fuel
argument; a `none` result means the fuel ran out, i.e. the source would not
have completed within that many iterations. -/

namespace MM

/-- 2^64: the modulus of `size_t` and pointer arithmetic. -/
def M64 : Nat := 2 ^ 64

/-- ALIGNMENT from mm.c. -/
def ALIGNMENT : Nat := 16

/-- align: `ALIGNMENT * ((x+ALIGNMENT-1)/ALIGNMENT)` in `size_t` arithmetic;
the addition `x + 15` wraps modulo 2^64. -/
def align (x : Nat) : Nat :=
  ALIGNMENT * (((x % M64 + (ALIGNMENT - 1)) % M64) / ALIGNMENT)

/-- Wrapping 64-bit subtraction, as on `size_t` and `char*`. -/
def wsub (a b : Nat) : Nat := (a % M64 + (M64 - b % M64)) % M64

/-- aligned(p): `align(ip) == ip`. -/
def aligned (p : Nat) : Bool := align p == p

/-- The heap: a word store of (byte address, 64-bit word) cells over a
zero-filled backing region.  Later cells shadow earlier ones. -/
abbrev Mem := List (Nat × Nat)

/-- Read the 64-bit word at byte address `a` (0 where never written). -/
def rd (m : Mem) (a : Nat) : Nat :=
  match m with
  | [] => 0
  | c :: cs => if a = c.1 then c.2 else rd cs a

/-- Store the 64-bit word `v` at byte address `a` (truncated to 64 bits). -/
def wr (m : Mem) (a v : Nat) : Mem := (a, v % M64) :: m

/-- GET_SIZE: `(*ptr) & ~3`, i.e. the stored 64-bit word with its two low bits
cleared. -/
def GET_SIZE (m : Mem) (a : Nat) : Nat := rd m a % M64 / 4 * 4

/-- GET_FREE_BIT: bit 0 of the stored word. -/
def GET_FREE_BIT (m : Mem) (a : Nat) : Bool := rd m a % 2 == 1

/-- GET_PREV_BLOCK_FREE_BIT: bit 1 of the stored word. -/
def GET_PREV_BLOCK_FREE_BIT (m : Mem) (a : Nat) : Bool := rd m a / 2 % 2 == 1

/-- SET_VALUE: stores `payload_size | flags`.  Every call site passes a size
that is a multiple of 4 (the source asserts a multiple of 16), for which the
bitwise or equals addition. -/
def SET_VALUE (m : Mem) (a size : Nat) (isf pf : Bool) : Mem :=
  wr m a (Nat.lor (size % M64) ((if pf then 2 else 0) + (if isf then 1 else 0)))

/-- SET_FREE_BIT: read-modify-write preserving size and the prev-free bit. -/
def SET_FREE_BIT (m : Mem) (a : Nat) (isf : Bool) : Mem :=
  SET_VALUE m a (GET_SIZE m a) isf (GET_PREV_BLOCK_FREE_BIT m a)

/-- SET_PREV_BLOCK_FREE_BIT: read-modify-write preserving size and the free
bit. -/
def SET_PREV_BLOCK_FREE_BIT (m : Mem) (a : Nat) (pf : Bool) : Mem :=
  SET_VALUE m a (GET_SIZE m a) (GET_FREE_BIT m a) pf

def Header_size : Nat := 8

def Footer_size : Nat := 8

/-- Header_get_payload: `header + 8`. -/
def Header_get_payload (h : Nat) : Nat := (h + Header_size) % M64

/-- Payload_get_header: `payload - 8`. -/
def Payload_get_header (p : Nat) : Nat := wsub p Header_size

/-- Payload_get_size: size field of the block's header. -/
def Payload_get_size (m : Mem) (p : Nat) : Nat := GET_SIZE m (Payload_get_header p)

/-- Payload_get_footer: `payload + payload_size`. -/
def Payload_get_footer (m : Mem) (p : Nat) : Nat := (p + Payload_get_size m p) % M64

/-- Header_get_footer, via the payload. -/
def Header_get_footer (m : Mem) (h : Nat) : Nat := Payload_get_footer m (Header_get_payload h)

/-- Header_get_next_header: `footer + 8`. -/
def Header_get_next_header (m : Mem) (h : Nat) : Nat := (Header_get_footer m h + Footer_size) % M64

/-- Footer_get_header: header of the block whose footer is at `f`. -/
def Footer_get_header (m : Mem) (f : Nat) : Nat := Payload_get_header (wsub f (GET_SIZE m f))

/-- Header_get_prev_header: via the previous block's footer at `h - 8`. -/
def Header_get_prev_header (m : Mem) (h : Nat) : Nat := Footer_get_header m (wsub h Footer_size)

/-- Header_get_list: the `DList` node of a free block lives at its payload. -/
def Header_get_list (h : Nat) : Nat := Header_get_payload h

/-- Payload_min_size: `align (sizeof DList)` = 16. -/
def Payload_min_size : Nat := align 16

/-- Block_min_size: header + minimum payload + footer = 32. -/
def Block_min_size : Nat := Header_size + Payload_min_size + Footer_size

/-- The allocator state: the word store, the `heap` global (prologue header
address), the current break, the fixed maximum break `limit` (the size of the
region `mm_sbrk` can hand out), and the 15 freelist head pointers (indices
0..14; the head pointers live in global storage, outside the heap). -/
structure MState where
  mem : Mem
  heap : Nat
  brk : Nat
  limit : Nat
  fl : List Nat

/-- Read freelist head `i`. -/
def MState.flGet (s : MState) (i : Nat) : Nat := s.fl.getD i 0

/-- Modelled from the spec: `mm_sbrk` (memlib, not under `src/`) grows the
managed region by `incr` bytes and returns the address of the first newly
added byte, or a failure sentinel (modelled as `none`) when the fixed maximum
region size would be exceeded. -/
def mm_sbrk (s : MState) (incr : Nat) : MState × Option Nat :=
  if s.brk + incr % M64 ≤ s.limit then
    ({ s with brk := s.brk + incr % M64 }, some s.brk)
  else (s, none)

/-- LinkedList_insert_at_front.  A `DList` node at address `p` keeps its
`prev` pointer in the word at `p` and its `next` pointer in the word at
`p + 8`.  Returns the updated store and the new head pointer. -/
def LinkedList_insert_at_front (m : Mem) (head node : Nat) : Mem × Nat :=
  let m1 := if head ≠ 0 then wr m head node else m
  let m2 := wr m1 node 0
  let m3 := wr m2 ((node + 8) % M64) head
  (m3, node)

/-- LinkedList_remove.  The second statement of the source re-reads the
node's `prev`/`next` fields after the first write, which the model mirrors
by reading from `m1`. -/
def LinkedList_remove (m : Mem) (head node : Nat) : Mem × Nat :=
  let m1 := if rd m ((node + 8) % M64) % M64 ≠ 0 then
      wr m (rd m ((node + 8) % M64) % M64) (rd m node % M64) else m
  let m2 := if rd m1 node % M64 ≠ 0 then
      wr m1 ((rd m1 node % M64 + 8) % M64) (rd m1 ((node + 8) % M64) % M64) else m1
  let head2 := if rd m1 node % M64 ≠ 0 then head else rd m1 ((node + 8) % M64) % M64
  (m2, head2)

/-- Segregated_get_size_classes: the 15 size classes; index 14 is the
any-size bucket, marked 0. -/
def size_classes : List Nat :=
  [16, 32, 48, 64, 80, 96, 112, 128, 144, 160, 176, 192, 208, 224, 0]

/-- The linear scan of Segregated_get_bucket. -/
def bucketAux : List Nat → Nat → Nat → Nat
  | [], _, _ => 14
  | c :: cs, size, i => if c = size then i else bucketAux cs size (i + 1)

/-- Segregated_get_bucket: index of the first class equal to `size`, else 14. -/
def Segregated_get_bucket (size : Nat) : Nat := bucketAux size_classes size 0

/-- Segregated_insert_header: LIFO insert into the bucket selected by the
block's current size field. -/
def Segregated_insert_header (s : MState) (h : Nat) : MState :=
  let bucket := Segregated_get_bucket (GET_SIZE s.mem h)
  let r := LinkedList_insert_at_front s.mem (s.flGet bucket % M64) (Header_get_list h)
  { s with mem := r.1, fl := s.fl.set bucket r.2 }

/-- Segregated_remove_header: unlink from the bucket selected by the block's
current size field. -/
def Segregated_remove_header (s : MState) (h : Nat) : MState :=
  let bucket := Segregated_get_bucket (GET_SIZE s.mem h)
  let r := LinkedList_remove s.mem (s.flGet bucket % M64) (Header_get_list h)
  { s with mem := r.1, fl := s.fl.set bucket r.2 }

/-- find_free_block_explicit_list_firstfit: first-fit walk from node `cur`.
`some 0` is the NULL result (no fit); `none` means the walk did not finish
within the fuel (the source loops forever on a cyclic list). -/
def find_free_block_explicit_list_firstfit (m : Mem) (size : Nat) : Nat → Nat → Option Nat
  | _, 0 => none
  | cur, fuel + 1 =>
    if cur = 0 then some 0
    else
      let header := Payload_get_header cur
      if (GET_SIZE m header + Footer_size) % M64 ≥ size then some header
      else find_free_block_explicit_list_firstfit m size (rd m ((cur + 8) % M64) % M64) fuel

/-- The `for` loop of Segregated_find_free_block over buckets `i < 14`:
returns the header of the head of the first non-empty bucket.  The second
argument counts the remaining iterations, `14 - i`. -/
def bucket_scan (s : MState) : Nat → Nat → Option Nat
  | _, 0 => none
  | i, left + 1 =>
    if s.flGet i % M64 ≠ 0 then some (Payload_get_header (s.flGet i % M64))
    else bucket_scan s (i + 1) left

/-- Segregated_find_free_block: exact-class buckets first (LIFO heads), then a
first-fit walk of bucket 14 against the original request `size`.  The source's
early return from the bucket loop, with the first-fit scan as the fallthrough,
is encoded with `Option.elim`. -/
def Segregated_find_free_block (s : MState) (size fuel : Nat) : Option Nat :=
  let ss := align (wsub size 8)
  let search_size := if ss ≥ Payload_min_size then ss else Payload_min_size
  let b0 := Segregated_get_bucket search_size
  (bucket_scan s b0 (14 - b0)).elim
    (find_free_block_explicit_list_firstfit s.mem size (s.flGet 14 % M64) fuel) some

/-- coalesce_left: merge the (free) block at `header` with its free left
neighbour; otherwise do nothing. -/
def coalesce_left (s : MState) (header : Nat) : MState :=
  if GET_FREE_BIT s.mem header = false then s
  else if GET_PREV_BLOCK_FREE_BIT s.mem header = false then s
  else
    let prev_header := Header_get_prev_header s.mem header
    let s1 := Segregated_remove_header s header
    let s2 := Segregated_remove_header s1 prev_header
    let size2 := (Header_size + GET_SIZE s2.mem header + Footer_size) % M64
    let size1 := (GET_SIZE s2.mem prev_header + size2) % M64
    let ppf := GET_PREV_BLOCK_FREE_BIT s2.mem prev_header
    let m1 := SET_VALUE s2.mem prev_header size1 true ppf
    let m2 := SET_VALUE m1 (Header_get_footer m1 prev_header) size1 true ppf
    Segregated_insert_header { s2 with mem := m2 } prev_header

/-- coalesce: right merge (via the next header read from the initial store),
then left merge. -/
def coalesce (s : MState) (header : Nat) : MState :=
  let next_header := Header_get_next_header s.mem header
  let s1 := coalesce_left s next_header
  coalesce_left s1 header

/-- extend_memory: grow the heap by `payload + footer + header` bytes; the old
epilogue header becomes the new block's header. -/
def extend_memory (s : MState) (size0 : Nat) : MState × Bool :=
  let a := align (wsub size0 8)
  let size := if a > Payload_min_size then a else Payload_min_size
  let incr := (size + Footer_size + Header_size) % M64
  let r := mm_sbrk s incr
  let s1 := r.1
  r.2.elim (s1, false) fun payload =>
    let header := Payload_get_header payload
    let pbf := GET_PREV_BLOCK_FREE_BIT s1.mem header
    let m1 := SET_VALUE s1.mem header size true pbf
    let m2 := SET_VALUE m1 (Header_get_footer m1 header) size true pbf
    let m3 := SET_VALUE m2 (Header_get_next_header m2 header) 0 false true
    let s2 := Segregated_insert_header { s1 with mem := m3 } header
    (coalesce s2 header, true)

/-- The tail of `allocate` (source lines 934-946): remove from the freelist,
clear the free bit, clear the next header's prev-free bit, clear the footer's
free bit, return the payload. -/
def allocate_finish (s : MState) (header : Nat) : MState × Nat :=
  let s1 := Segregated_remove_header s header
  let next_header := Header_get_next_header s1.mem header
  let m1 := SET_FREE_BIT s1.mem header false
  let m2 := SET_PREV_BLOCK_FREE_BIT m1 next_header false
  let m3 := SET_FREE_BIT m2 (Header_get_footer m2 header) false
  ({ s1 with mem := m3 }, Header_get_payload header)

/-- allocate: optionally split the chosen block, then mark it allocated. -/
def allocate (s : MState) (header size0 : Nat) : MState × Nat :=
  let a := align (wsub size0 8)
  let size := if a > Payload_min_size then a else Payload_min_size
  if wsub (GET_SIZE s.mem header) size ≥ Block_min_size then
    let s1 := Segregated_remove_header s header
    let old_size := GET_SIZE s1.mem header
    let new_size := size
    let m1 := SET_VALUE s1.mem header new_size true false
    let m2 := SET_VALUE m1 (Header_get_footer m1 header) new_size true false
    let s2 := Segregated_insert_header { s1 with mem := m2 } header
    let free_space := wsub old_size new_size
    let new_payload_size := wsub free_space (Header_size + Footer_size)
    let new_header := Header_get_next_header s2.mem header
    let m3 := SET_VALUE s2.mem new_header new_payload_size true false
    let m4 := SET_VALUE m3 (Header_get_footer m3 new_header) new_payload_size true false
    let s3 := Segregated_insert_header { s2 with mem := m4 } new_header
    allocate_finish s3 header
  else
    allocate_finish s header

/-- mirror_header_to_footer. -/
def mirror_header_to_footer (m : Mem) (h : Nat) : Mem :=
  SET_VALUE m (Header_get_footer m h) (GET_SIZE m h) (GET_FREE_BIT m h)
    (GET_PREV_BLOCK_FREE_BIT m h)

/-- free: mark free, restore the footer, set the next header's prev-free bit,
insert, coalesce.  (The source has no null check.) -/
def free (s : MState) (ptr : Nat) : MState :=
  let header := Payload_get_header ptr
  let m1 := SET_FREE_BIT s.mem header true
  let m2 := mirror_header_to_footer m1 header
  let next_header := Header_get_next_header m2 header
  let m3 := SET_PREV_BLOCK_FREE_BIT m2 next_header true
  let s1 := Segregated_insert_header { s with mem := m3 } header
  coalesce s1 header

/-- malloc, with the retry-after-extension recursion bounded by fuel.  `none`
means the call did not complete within the fuel. -/
def malloc : Nat → MState → Nat → Option (MState × Nat)
  | 0, _, _ => none
  | fuel + 1, s, size =>
    if size = 0 then some (s, 0)
    else
      (Segregated_find_free_block s size (fuel + 1)).elim none fun header =>
        if header = 0 then
          let r := extend_memory s size
          if r.2 then malloc fuel r.1 size else some (r.1, 0)
        else some (allocate s header size)

/-- A word filled with byte `c` in every lane. -/
def fillWord (c : Nat) : Nat := c % 256 * 0x0101010101010101

/-- Whole-word part of `mem_memset`. -/
def msetWords : Mem → Nat → Nat → Nat → Mem
  | m, _, _, 0 => m
  | m, dst, c, k + 1 => msetWords (wr m dst (fillWord c)) ((dst + 8) % M64) c k

/-- Modelled from the spec: `mem_memset` (memlib, not under `src/`) fills `n`
bytes from `dst` with byte `c`.  On the word store (little-endian): whole
words get the byte pattern; a trailing partial word of `n % 8` bytes replaces
only its low, lowest-addressed bytes.  All uses start 8-aligned. -/
def mem_memset (m : Mem) (dst c n : Nat) : Mem :=
  let w := n / 8
  let r := n % 8
  let m1 := msetWords m dst c w
  if r = 0 then m1
  else
    let a := (dst + 8 * w) % M64
    wr m1 a (rd m1 a % M64 / 256 ^ r * 256 ^ r + fillWord c % 256 ^ r)

/-- Whole-word part of `mem_memcpy`. -/
def mcpyWords : Mem → Nat → Nat → Nat → Mem
  | m, _, _, 0 => m
  | m, dst, src, k + 1 =>
    mcpyWords (wr m dst (rd m src % M64)) ((dst + 8) % M64) ((src + 8) % M64) k

/-- Modelled from the spec: `mem_memcpy` (memlib, not under `src/`) copies `n`
bytes from `src` to `dst` (non-overlapping in all uses); a trailing partial
word of `n % 8` bytes replaces only its low, lowest-addressed bytes. -/
def mem_memcpy (m : Mem) (dst src n : Nat) : Mem :=
  let w := n / 8
  let r := n % 8
  let m1 := mcpyWords m dst src w
  if r = 0 then m1
  else
    let da := (dst + 8 * w) % M64
    let sa := (src + 8 * w) % M64
    wr m1 da (rd m1 da % M64 / 256 ^ r * 256 ^ r + rd m1 sa % M64 % 256 ^ r)

/-- realloc. -/
def realloc (fuel : Nat) (s : MState) (oldptr size : Nat) : Option (MState × Nat) :=
  if oldptr = 0 then malloc fuel s size
  else if size = 0 then some (free s oldptr, 0)
  else
    let header := Payload_get_header oldptr
    let payload_size := GET_SIZE s.mem header
    if (payload_size + Footer_size) % M64 ≥ size then some (s, oldptr)
    else
      (malloc fuel s size).elim none fun r =>
        let s1 := r.1
        let np := r.2
        if np = 0 then some (s1, 0)
        else
          let m1 := mem_memcpy s1.mem np oldptr ((payload_size + Footer_size) % M64)
          some (free { s1 with mem := m1 } oldptr, np)

/-- calloc: `size *= nmemb` wraps modulo 2^64. -/
def calloc (fuel : Nat) (s : MState) (nmemb size0 : Nat) : Option (MState × Nat) :=
  let size := size0 * nmemb % M64
  (malloc fuel s size).elim none fun r =>
    let s1 := r.1
    let p := r.2
    if p ≠ 0 then some ({ s1 with mem := mem_memset s1.mem p 0 size }, p)
    else some (s1, p)

/-- A fresh process state before `mm_init`: the break sits at `base`, the
region `mm_sbrk` serves is zero-filled (memlib maps fresh zero pages), and the
globals are null. -/
def initState (base limit : Nat) : MState :=
  { mem := [], heap := 0, brk := base, limit := limit, fl := List.replicate 15 0 }

/-- The do-while alignment probe of mm_init: `sbrk(1)` until the returned
address is 16-byte aligned.  At most 16 rounds are ever needed; `none` means
the fuel ran out.  `some (s, none)` reports an sbrk failure. -/
def init_probe : MState → Nat → Option (MState × Option Nat)
  | _, 0 => none
  | s, fuel + 1 =>
    let r := mm_sbrk s 1
    r.2.elim (some (r.1, none)) fun start =>
      if aligned start then some (r.1, some start)
      else init_probe r.1 fuel

/-- mm_init: probe to a 16-byte-aligned start, take 31 more bytes, lay out
padding, prologue header/footer and epilogue header, clear the freelists. -/
def mm_init (s : MState) : Option (MState × Bool) :=
  (init_probe s 17).elim none fun pr =>
    let s1 := pr.1
    pr.2.elim (some (s1, false)) fun start =>
      let size := 8 + Header_size + Footer_size + Header_size - 1
      let r := mm_sbrk s1 size
      r.2.elim (some (r.1, false)) fun _ =>
        let s3 := { r.1 with heap := (start + 8) % M64, fl := List.replicate 15 0 }
        let header := s3.heap
        let m1 := SET_VALUE s3.mem header 0 false false
        let m2 := SET_VALUE m1 (Header_get_footer m1 header) 0 false false
        let m3 := SET_VALUE m2 (Header_get_next_header m2 header) 0 false false
        some ({ s3 with mem := m3 }, true)

/-- The public operations. -/
inductive Op where
  | alloc (n : Nat)
  | freep (p : Nat)
  | realloc (p n : Nat)
  | calloc (k n : Nat)

/-- Run one public operation; `free` returns the null pointer as its result. -/
def runOp (fuel : Nat) (op : Op) (s : MState) : Option (MState × Nat) :=
  match op with
  | .alloc n => malloc fuel s n
  | .freep p => some (free s p, 0)
  | .realloc p n => realloc fuel s p n
  | .calloc k n => calloc fuel s k n

/-- Walk the implicit block list from header address `a` until a size-0
header (the epilogue); yields `(header, size, free)` per block.  `none` means
no epilogue was found within the fuel. -/
def walkBlocks (m : Mem) : Nat → Nat → Option (List (Nat × Nat × Bool))
  | _, 0 => none
  | a, fuel + 1 =>
    if GET_SIZE m a = 0 then some []
    else
      (walkBlocks m (a + 16 + GET_SIZE m a) fuel).map
        (fun bs => (a, GET_SIZE m a, GET_FREE_BIT m a) :: bs)

/-- Payload addresses of the currently allocated user blocks, read off the
heap itself. -/
def allocatedPayloads (s : MState) : List Nat :=
  (walkBlocks s.mem (s.heap + 16) s.brk).elim []
    (fun bs => (bs.filter (fun b => !b.2.2)).map (fun b => b.1 + 8))

/-- An operation is valid when its pointer argument respects the caller
contract: `free` takes a currently allocated payload pointer, `realloc` that
or null.  (Anything else is undefined behaviour in the source.) -/
def ValidOp (s : MState) : Op → Prop
  | .alloc _ => True
  | .freep p => p ∈ allocatedPayloads s
  | .realloc p _ => p = 0 ∨ p ∈ allocatedPayloads s
  | .calloc _ _ => True

/-- States reachable by a successful `mm_init` followed by any sequence of
valid, completed operations.  The bound on `limit` keeps the managed region
inside the 64-bit address space (with room for one block header beyond). -/
inductive Reach : MState → Prop
  | init (base limit : Nat) (s1 : MState) :
      limit + 72 < M64 →
      mm_init (initState base limit) = some (s1, true) →
      Reach s1
  | step (s s1 : MState) (op : Op) (fuel r : Nat) :
      Reach s →
      ValidOp s op →
      runOp fuel op s = some (s1, r) →
      Reach s1

/-- Check that no two adjacent user blocks are both free, by walking the
boundary tags.  (The prologue and epilogue sentinels are always allocated.) -/
def noAdjPairs : List (Nat × Nat × Bool) → Bool
  | [] => true
  | [_] => true
  | b1 :: b2 :: bs => (!(b1.2.2 && b2.2.2)) && noAdjPairs (b2 :: bs)

/-- The coalescing invariant, read off the raw heap. -/
def noTwoAdjacentFreeChk (s : MState) : Bool :=
  (walkBlocks s.mem (s.heap + 16) s.brk).elim false noAdjPairs

/-- The header/footer word encoding payload size `size` (a multiple of 16 in
well-formed states) with free bit `isf` and prev-free bit `pf`. -/
def hval (size : Nat) (isf pf : Bool) : Nat :=
  size + (if pf then 2 else 0) + (if isf then 1 else 0)

/-- The request-sizing computation shared by `allocate` and `extend_memory`:
`size = align(size - 8); size = size > Payload_min_size ? size : Payload_min_size`
with wrapping unsigned subtraction. -/
def requiredPayload (n : Nat) : Nat :=
  let a := align (wsub n 8)
  if a > Payload_min_size then a else Payload_min_size

/-- Spec §4.4's request sizing: `max(align_up(n − 8, 16), 16)` in plain
natural arithmetic, the subtraction saturating to 0 for `n ≤ 8`. -/
def needSpec (n : Nat) : Nat := max ((n - 8 + 15) / 16 * 16) 16

/-- Spec §4.5's description of the eligible left merge, written from the
claim's words for comparison with `coalesce_left`: remove both blocks from
the index, rewrite the previous block's header and footer with merged payload
size `size(prev) + 16 + size(h)`, free, prev-free inherited from the previous
block's prior value, and reinsert the merged block. -/
def coalesceLeftSpec (s : MState) (header : Nat) : MState :=
  let prev_header := Header_get_prev_header s.mem header
  let s1 := Segregated_remove_header s header
  let s2 := Segregated_remove_header s1 prev_header
  let size1 := (GET_SIZE s2.mem prev_header + 16 + GET_SIZE s2.mem header) % M64
  let ppf := GET_PREV_BLOCK_FREE_BIT s2.mem prev_header
  let m1 := SET_VALUE s2.mem prev_header size1 true ppf
  let m2 := SET_VALUE m1 (Header_get_footer m1 prev_header) size1 true ppf
  Segregated_insert_header { s2 with mem := m2 } prev_header

/-- A concrete state exercising the coalescer: prologue at 24, a free
16-byte-payload block at header 40 (in bucket 0), a free 96-byte-payload
block at header 72 with its prev-free bit set (in bucket 5), epilogue at
184. -/
def stateC6 : MState :=
  { mem := [(24, 0), (32, 0), (40, 17), (64, 17), (72, 99), (176, 99), (184, 2),
            (48, 0), (56, 0), (80, 0), (88, 0)],
    heap := 24, brk := 192, limit := 100000,
    fl := [48, 0, 0, 0, 0, 80, 0, 0, 0, 0, 0, 0, 0, 0, 0] }

/-- A concrete state exercising `free(null)`: prologue at 24, one free block
of payload 240 at header 40 (an overflow-class size, so it sits in freelist
14 with node 48), epilogue at 296. -/
def stateC8 : MState :=
  { mem := [(24, 0), (32, 0), (40, 241), (288, 241), (296, 2), (48, 0), (56, 0)],
    heap := 24, brk := 304, limit := 100000,
    fl := [0, 0, 0, 0, 0, 0, 0, 0, 0, 0, 0, 0, 0, 0, 48] }

/-- A concrete freshly initialised heap: probe from break 16, limit 1000.
The prologue header sits at 24, the epilogue at 40, the break at 48. -/
def stateInit : MState := ((mm_init (initState 16 1000)).getD (initState 16 1000, false)).1

/-- The state after `calloc(2^63 + 1, 2)` on the fresh heap. -/
def stateC10 : MState := ((calloc 5 stateInit (2 ^ 63 + 1) 2).getD (stateInit, 0)).1

/-- A freelist chain in the store: `ns` are the node (payload) addresses
reachable from `cur`; each node's `prev` word points to the preceding node
(0 at the head) and its `next` word (at offset 8) to the following node,
read exactly as the source reads them. -/
def chainRep (m : Mem) : Nat → Nat → List Nat → Prop
  | _, cur, [] => cur = 0
  | prev, cur, p :: ps =>
      cur = p ∧ p ≠ 0 ∧ rd m p % M64 = prev ∧
      chainRep m p (rd m ((p + 8) % M64) % M64) ps

/-- The claim's first-fit policy over the overflow list (spec §4.4, written
from the claim's words): the header of the first node whose payload size + 8
is at least the original request `n`; null if none. -/
def firstFitSpec (m : Mem) (n : Nat) : List Nat → Nat
  | [] => 0
  | p :: ps =>
    if n ≤ GET_SIZE m (Payload_get_header p) + 8 then Payload_get_header p
    else firstFitSpec m n ps

/-- Well-formed 64-bit store: every cell value is reduced modulo 2^64 (true
of every store the model builds, since `wr` truncates). -/
def memB (m : Mem) : Prop := ∀ c ∈ m, c.2 < M64

/-- Ghost view of one heap block. -/
structure GB where
  size : Nat
  free : Bool

/-- Ghost view of the allocator state: the prologue address, the user blocks
in address order, and the fifteen freelists as lists of payload addresses. -/
structure GS where
  base : Nat
  bs : List GB
  ls : Nat → List Nat

/-- The raw store lays out the blocks `bs` from header address `a`, the
previous block's free bit being `pf`, ending with the epilogue header just
below `brk`.  Free blocks carry a footer that mirrors the header. -/
def blocksRep (m : Mem) : Nat → Bool → List GB → Nat → Prop
  | a, pf, [], brk => rd m a = hval 0 false pf ∧ a + 8 = brk
  | a, pf, b :: bs, brk =>
      rd m a = hval b.size b.free pf ∧ b.size % 16 = 0 ∧ 16 ≤ b.size ∧
      (b.free = true → rd m (a + 8 + b.size) = hval b.size true pf) ∧
      blocksRep m (a + 16 + b.size) b.free bs brk

/-- A prefix segment of the block layout (no epilogue among it). -/
def blocksSeg (m : Mem) : Nat → Bool → List GB → Prop
  | _, _, [] => True
  | a, pf, b :: bs =>
      rd m a = hval b.size b.free pf ∧ b.size % 16 = 0 ∧ 16 ≤ b.size ∧
      (b.free = true → rd m (a + 8 + b.size) = hval b.size true pf) ∧
      blocksSeg m (a + 16 + b.size) b.free bs

/-- The header address one past the segment `bs` laid out from `a`. -/
def endAddr : Nat → List GB → Nat
  | a, [] => a
  | a, b :: bs => endAddr (a + 16 + b.size) bs

/-- Free bit of the last block of `bs` (`pf` for the empty segment). -/
def lastFree (pf : Bool) : List GB → Bool
  | [] => pf
  | b :: bs => lastFree b.free bs

/-- The free cells (payload address, payload size) of the layout, in address
order. -/
def freeCells : Nat → List GB → List (Nat × Nat)
  | _, [] => []
  | a, b :: bs =>
      (if b.free then [(a + 8, b.size)] else []) ++ freeCells (a + 16 + b.size) bs

/-- All freelist nodes of the ghost lists, bucket by bucket. -/
def joinLists (ls : Nat → List Nat) : List Nat := (List.range 15).flatMap ls

/-- No two adjacent blocks are both free. -/
def AdjOK : List GB → Prop
  | [] => True
  | [_] => True
  | b1 :: b2 :: bs => ¬(b1.free = true ∧ b2.free = true) ∧ AdjOK (b2 :: bs)

/-- The representation invariant tying a ghost state to the raw state. -/
structure Rep (g : GS) (s : MState) : Prop where
  heap_eq : s.heap = g.base
  base_mod : g.base % 16 = 8
  base_ge : 8 ≤ g.base
  limit_lt : s.limit + 72 < M64
  brk_le : s.brk ≤ s.limit
  fl_len : s.fl.length = 15
  mem_b : memB s.mem
  prologue_hdr : rd s.mem g.base = 0
  prologue_ftr : rd s.mem (g.base + 8) = 0
  blocks : blocksRep s.mem (g.base + 16) false g.bs s.brk
  chains : ∀ b, b < 15 → chainRep s.mem 0 (s.flGet b % M64) (g.ls b)
  buckets : ∀ b, b < 15 → ∀ p ∈ g.ls b,
      ∃ sz, (p, sz) ∈ freeCells (g.base + 16) g.bs ∧ Segregated_get_bucket sz = b
  cover : (joinLists g.ls).Perm ((freeCells (g.base + 16) g.bs).map Prod.fst)

/-- Representation plus the coalescing invariant. -/
def WF (g : GS) (s : MState) : Prop := Rep g s ∧ AdjOK g.bs

end MM

/-! End of definitions translated so far; theorems follow.  More definitions
(specification-side descriptions, ghost state, concrete states for witnesses)
are inserted above this line as the development grows. -/

/-! Basic toolkit: store lemmas, header-word codec lemmas, arithmetic facts. -/

namespace MM

theorem M64_eq : M64 = 18446744073709551616 := rfl

theorem M64_pos : 0 < M64 := by rw [M64_eq]; omega

theorem rd_wr (m : Mem) (a v x : Nat) :
    rd (wr m a v) x = if x = a then v % M64 else rd m x := by
  simp [rd, wr]

theorem rd_nil (a : Nat) : rd [] a = 0 := rfl

/-- Bitwise or of a multiple of four with a two-bit flag field is addition. -/
theorem lor_four (q f : Nat) (hf : f < 4) : Nat.lor (4 * q) f = 4 * q + f := by
  show 4 * q ||| f = 4 * q + f
  apply Nat.eq_of_testBit_eq
  intro i
  rw [Nat.testBit_or]
  match i with
  | 0 =>
    have h0 : 4 * q % 2 = 0 := by omega
    simp only [Nat.testBit_to_div_mod, pow_zero, Nat.div_one, h0, decide_eq_decide,
      Nat.zero_ne_one, decide_False, Bool.false_or]
    omega
  | 1 =>
    have h0 : 4 * q / 2 % 2 = 0 := by omega
    simp only [Nat.testBit_to_div_mod, pow_one, h0, Nat.zero_ne_one, decide_False,
      Bool.false_or, decide_eq_decide]
    omega
  | (j+2) =>
    have h1 : 2 ^ (j + 2) = 4 * 2 ^ j := by ring
    have hbf : Nat.testBit f (j+2) = false := Nat.testBit_lt_two_pow (by
      calc f < 4 := hf
      _ ≤ 2 ^ (j + 2) := by
            have : (1:Nat) ≤ 2 ^ j := Nat.one_le_two_pow
            calc (4:Nat) = 4 * 1 := by ring
            _ ≤ 4 * 2 ^ j := by omega
            _ = 2 ^ (j + 2) := by ring)
    rw [hbf]
    simp only [Nat.testBit_to_div_mod, h1, Bool.or_false]
    have e1 : 4 * q / (4 * 2 ^ j) = q / 2 ^ j := by
      rw [Nat.mul_div_mul_left _ _ (by norm_num)]
    have e2 : (4 * q + f) / (4 * 2 ^ j) = q / 2 ^ j := by
      rw [← Nat.div_div_eq_div_mul, Nat.mul_add_div (by norm_num)]
      have hz : f / 4 = 0 := Nat.div_eq_of_lt hf
      rw [hz, Nat.add_zero]
    rw [e1, e2]

theorem hval_lt {size : Nat} (isf pf : Bool) (h4 : size % 4 = 0) (h : size < M64) :
    hval size isf pf < M64 := by
  have := M64_eq
  cases isf <;> cases pf <;> simp [hval] <;> omega

theorem SET_VALUE_eq (m : Mem) (a size : Nat) (isf pf : Bool)
    (h4 : size % 4 = 0) (h : size < M64) :
    SET_VALUE m a size isf pf = wr m a (hval size isf pf) := by
  unfold SET_VALUE wr
  have h1 : size % M64 = size := Nat.mod_eq_of_lt h
  rw [h1]
  obtain ⟨q, rfl⟩ : ∃ q, size = 4 * q := ⟨size / 4, by omega⟩
  rw [lor_four q _ (by cases isf <;> cases pf <;> simp)]
  cases isf <;> cases pf <;> simp [hval]

theorem GET_SIZE_of_rd {m : Mem} {a size : Nat} {isf pf : Bool}
    (hr : rd m a = hval size isf pf) (h4 : size % 4 = 0) (h : size < M64) :
    GET_SIZE m a = size := by
  unfold GET_SIZE
  rw [hr, Nat.mod_eq_of_lt (hval_lt isf pf h4 h)]
  cases isf <;> cases pf <;> simp [hval] <;> omega

theorem GET_FREE_of_rd {m : Mem} {a size : Nat} {isf pf : Bool}
    (hr : rd m a = hval size isf pf) (h4 : size % 4 = 0) :
    GET_FREE_BIT m a = isf := by
  unfold GET_FREE_BIT
  rw [hr]
  cases isf <;> cases pf <;> simp [hval] <;> omega

theorem GET_PF_of_rd {m : Mem} {a size : Nat} {isf pf : Bool}
    (hr : rd m a = hval size isf pf) (h4 : size % 4 = 0) :
    GET_PREV_BLOCK_FREE_BIT m a = pf := by
  unfold GET_PREV_BLOCK_FREE_BIT
  rw [hr]
  cases isf <;> cases pf <;> simp [hval] <;> omega

theorem Payload_min_size_eq : Payload_min_size = 16 := rfl

theorem Block_min_size_eq : Block_min_size = 32 := rfl

theorem wsub_eq {a b : Nat} (h1 : b ≤ a) (h2 : a < M64) : wsub a b = a - b := by
  unfold wsub
  rw [M64_eq] at h2 ⊢
  omega

theorem align_eq {x : Nat} (h : x + 15 < M64) : align x = (x + 15) / 16 * 16 := by
  unfold align ALIGNMENT
  have hM := M64_eq
  rw [Nat.mod_eq_of_lt (by omega : x < M64), Nat.mod_eq_of_lt (by omega : x + 15 < M64)]
  omega

end MM

/-! Claim C3: request sizing. -/

namespace MM

/-- C3 counterexample: at `n = 2^64 − 7` the wrapped computation of the
allocation path (`align(n − 8)` maxed with 16) yields 16 while the claimed
saturating form `max(align_up(n − 8, 16), 16)` yields `2^64`, so the claimed
equality fails for this `n ≥ 1`. -/
theorem C3_counterexample :
    1 ≤ M64 - 7 ∧ requiredPayload (M64 - 7) = 16 ∧ needSpec (M64 - 7) = M64 ∧
      requiredPayload (M64 - 7) ≠ needSpec (M64 - 7) :=
  ⟨by decide, by decide, by decide, by decide⟩

/-- C3 (amended: restricted to `1 ≤ n ≤ 2^64 − 8`, so that the final `+ 15`
of the alignment cannot wrap): the effective payload size computed by the
allocation path, `max(align(n − 8), 16)` with wrapping subtraction, equals
the spec's saturating `max(align_up(n − 8, 16), 16)`; in particular requests
1..24 yield 16, 25..40 yield 32, and 41..48 yield 48. -/
theorem C3_requiredPayload (n : Nat) (h1 : 1 ≤ n) (h2 : n ≤ M64 - 8) :
    requiredPayload n = needSpec n ∧
    (n ≤ 24 → requiredPayload n = 16) ∧
    (25 ≤ n → n ≤ 40 → requiredPayload n = 32) ∧
    (41 ≤ n → n ≤ 48 → requiredPayload n = 48) := by
  unfold requiredPayload needSpec Payload_min_size align wsub ALIGNMENT
  rw [M64_eq] at h2 ⊢
  dsimp only
  refine ⟨?_, ?_, ?_, ?_⟩ <;> split_ifs <;> omega

/-- Witness for C3 at `n = 30`. -/
theorem C3_requiredPayload_witness :
    requiredPayload 30 = needSpec 30 ∧ requiredPayload 30 = 32 := by
  have h := C3_requiredPayload 30 (by decide) (by decide)
  exact ⟨h.1, h.2.2.1 (by decide) (by decide)⟩

/-- Arithmetic facts about the effective payload size, for sane requests. -/
theorem requiredPayload_facts (n : Nat) (h1 : 1 ≤ n) (h2 : n ≤ M64 - 24) :
    requiredPayload n % 16 = 0 ∧ 16 ≤ requiredPayload n ∧
    requiredPayload n ≤ M64 - 32 ∧ n ≤ requiredPayload n + 8 := by
  unfold requiredPayload Payload_min_size align wsub ALIGNMENT
  rw [M64_eq] at h2 ⊢
  dsimp only
  refine ⟨?_, ?_, ?_, ?_⟩ <;> split_ifs <;> omega

/-- A 16-aligned payload of size `p ≥ 16` with capacity `p + 8 ≥ n` is at
least the effective payload size of the request. -/
theorem requiredPayload_le_of_fit (n p : Nat) (h1 : 1 ≤ n) (h2 : n ≤ M64 - 24)
    (hp16 : p % 16 = 0) (hp : 16 ≤ p) (hfit : n ≤ p + 8) :
    requiredPayload n ≤ p := by
  unfold requiredPayload Payload_min_size align wsub ALIGNMENT
  rw [M64_eq] at h2 ⊢
  dsimp only
  split_ifs <;> omega

end MM


/-! Claim C6: the coalescer. -/

namespace MM

/-- Merged-size arithmetic: the source computes `size(prev) + (8 + size(h) + 8)`
with intermediate 64-bit truncation; this equals `size(prev) + 16 + size(h)`
modulo 2^64. -/
theorem merge_sizes (a b : Nat) :
    (a + (Header_size + b + Footer_size) % M64) % M64 = (a + 16 + b) % M64 := by
  unfold Header_size Footer_size
  rw [M64_eq]
  omega

/-- C6: `coalesce_left h` leaves the state unchanged unless `h` is free and
its prev-free bit is set; when both hold it equals the claimed composition:
remove both blocks, rewrite the previous block's header and footer with
merged payload size `size(prev) + 16 + size(h)`, free, prev-free inherited,
reinsert; and `coalesce h` applies `coalesce_left` to the right neighbour
(computed from the initial store) first and then to `h` itself. -/
theorem C6_coalesce (s : MState) (h : Nat) :
    (GET_FREE_BIT s.mem h = false → coalesce_left s h = s) ∧
    (GET_PREV_BLOCK_FREE_BIT s.mem h = false → coalesce_left s h = s) ∧
    (GET_FREE_BIT s.mem h = true → GET_PREV_BLOCK_FREE_BIT s.mem h = true →
      coalesce_left s h = coalesceLeftSpec s h) ∧
    coalesce s h = coalesce_left (coalesce_left s (Header_get_next_header s.mem h)) h := by
  refine ⟨?_, ?_, ?_, rfl⟩
  · intro hf
    unfold coalesce_left
    simp [hf]
  · intro hp
    unfold coalesce_left
    by_cases hf : GET_FREE_BIT s.mem h = false <;> simp [hf, hp]
  · intro hf hp
    unfold coalesce_left coalesceLeftSpec
    simp only [hf, hp, Bool.true_eq_false, if_false, merge_sizes]

/-- Witness for C6 on `stateC6`, whose block at header 72 is free with a free
left neighbour. -/
theorem C6_coalesce_witness :
    coalesce_left stateC6 72 = coalesceLeftSpec stateC6 72 ∧
    coalesce stateC6 72 =
      coalesce_left (coalesce_left stateC6 (Header_get_next_header stateC6.mem 72)) 72 :=
  ⟨(C6_coalesce stateC6 72).2.2.1 (by decide) (by decide),
   (C6_coalesce stateC6 72).2.2.2⟩

end MM


/-! Claim C8: free of the null pointer. -/

namespace MM

/-- C8 counterexample: the source has no null check, so `free(0)` is not a
no-op: from `stateC8` it sets the free bit of the word at address `2^64 − 8`
(null's "header") and overwrites the head of freelist 14 with the null
pointer, losing that list. -/
theorem C8_counterexample :
    stateC8.flGet 14 = 48 ∧ (free stateC8 0).flGet 14 = 0 ∧
    rd stateC8.mem (M64 - 8) = 0 ∧ rd (free stateC8 0).mem (M64 - 8) = 1 :=
  ⟨by decide, by decide, by decide, by decide⟩

end MM

namespace MM

/-- C8 (amended): `free(null)` is not a no-op.  The source elides the null
check, so `free(0)` treats the word at address `2^64 − 8` as the block
header: whenever that word is 0 (any address never handed out by `mm_sbrk`),
the call sets it to 1 (free bit set), and it overwrites the head of freelist
14 with the null `DList` node at address 0, emptying that list.  The
hypotheses hold in every state the allocator itself can produce: the heap
words live far below `2^64 − 8` and list heads are 16-aligned payload
addresses. -/
theorem C8_free_null (s : MState) (hlen : s.fl.length = 15)
    (h1 : rd s.mem (M64 - 8) = 0)
    (h2 : s.flGet 14 % M64 ≠ M64 - 8) (h3 : s.flGet 14 % 2 = 0) :
    rd (free s 0).mem (M64 - 8) = 1 ∧ (free s 0).flGet 14 = 0 := by
  have e1 : Payload_get_header 0 = M64 - 8 := by decide
  -- step A: setting the free bit of the null "header"
  have hA : SET_FREE_BIT s.mem (M64 - 8) true = wr s.mem (M64 - 8) 1 := by
    unfold SET_FREE_BIT
    have hs : GET_SIZE s.mem (M64 - 8) = 0 := by unfold GET_SIZE; rw [h1]; decide
    have hp : GET_PREV_BLOCK_FREE_BIT s.mem (M64 - 8) = false := by
      unfold GET_PREV_BLOCK_FREE_BIT; rw [h1]; decide
    rw [hs, hp]; unfold SET_VALUE wr; norm_num; decide
  have hr1 : rd (wr s.mem (M64 - 8) 1) (M64 - 8) = 1 := by
    rw [rd_wr, if_pos rfl]; decide
  -- step B: mirroring the header to the "footer" at address 0
  have hB : mirror_header_to_footer (wr s.mem (M64 - 8) 1) (M64 - 8) =
      wr (wr s.mem (M64 - 8) 1) 0 1 := by
    unfold mirror_header_to_footer
    have hs : GET_SIZE (wr s.mem (M64 - 8) 1) (M64 - 8) = 0 := by
      unfold GET_SIZE; rw [hr1]; decide
    have hfr : GET_FREE_BIT (wr s.mem (M64 - 8) 1) (M64 - 8) = true := by
      unfold GET_FREE_BIT; rw [hr1]; decide
    have hp : GET_PREV_BLOCK_FREE_BIT (wr s.mem (M64 - 8) 1) (M64 - 8) = false := by
      unfold GET_PREV_BLOCK_FREE_BIT; rw [hr1]; decide
    have hf : Header_get_footer (wr s.mem (M64 - 8) 1) (M64 - 8) = 0 := by
      unfold Header_get_footer Payload_get_footer Payload_get_size
      have e2 : Payload_get_header (Header_get_payload (M64 - 8)) = M64 - 8 := by decide
      rw [e2, hs]
      decide
    rw [hf, hs, hfr, hp]; unfold SET_VALUE wr; norm_num; decide
  have hr2 : rd (wr (wr s.mem (M64 - 8) 1) 0 1) (M64 - 8) = 1 := by
    rw [rd_wr, if_neg (by decide)]; exact hr1
  -- step C: the next header is the word at address 8
  have hC : Header_get_next_header (wr (wr s.mem (M64 - 8) 1) 0 1) (M64 - 8) = 8 := by
    unfold Header_get_next_header Header_get_footer Payload_get_footer Payload_get_size
    have e2 : Payload_get_header (Header_get_payload (M64 - 8)) = M64 - 8 := by decide
    rw [e2]
    have hs : GET_SIZE (wr (wr s.mem (M64 - 8) 1) 0 1) (M64 - 8) = 0 := by
      unfold GET_SIZE; rw [hr2]; decide
    rw [hs]
    decide
  -- step D: setting the prev-free bit of the word at address 8 (opaque value)
  obtain ⟨v8, hD⟩ : ∃ v, SET_PREV_BLOCK_FREE_BIT (wr (wr s.mem (M64 - 8) 1) 0 1) 8 true =
      wr (wr (wr s.mem (M64 - 8) 1) 0 1) 8 v := ⟨_, rfl⟩
  -- step E: inserting the null node into bucket 14
  have hr3 : rd (wr (wr (wr s.mem (M64 - 8) 1) 0 1) 8 v8) (M64 - 8) = 1 := by
    rw [rd_wr, if_neg (by decide)]; exact hr2
  have hE : Segregated_insert_header
      { s with mem := wr (wr (wr s.mem (M64 - 8) 1) 0 1) 8 v8 } (M64 - 8) =
      { s with
        mem := wr (wr (if s.flGet 14 % M64 ≠ 0
            then wr (wr (wr (wr s.mem (M64 - 8) 1) 0 1) 8 v8) (s.flGet 14 % M64) 0
            else wr (wr (wr s.mem (M64 - 8) 1) 0 1) 8 v8) 0 0) 8 (s.flGet 14 % M64),
        fl := s.fl.set 14 0 } := by
    unfold Segregated_insert_header LinkedList_insert_at_front
    have hs : GET_SIZE (wr (wr (wr s.mem (M64 - 8) 1) 0 1) 8 v8) (M64 - 8) = 0 := by
      unfold GET_SIZE; rw [hr3]; decide
    rw [hs]
    have hb : Segregated_get_bucket 0 = 14 := by decide
    rw [hb]
    have hl : Header_get_list (M64 - 8) = 0 := by decide
    rw [hl]
    have h08 : ((0:Nat) + 8) % M64 = 8 := by decide
    rw [h08]
    rfl
  -- the final coalesce does nothing
  have hfin : ∀ t : MState, rd t.mem (M64 - 8) = 1 → rd t.mem 8 = s.flGet 14 % M64 →
      coalesce t (M64 - 8) = t := by
    intro t ht1 ht8
    have hnh : Header_get_next_header t.mem (M64 - 8) = 8 := by
      unfold Header_get_next_header Header_get_footer Payload_get_footer Payload_get_size
      have e2 : Payload_get_header (Header_get_payload (M64 - 8)) = M64 - 8 := by decide
      rw [e2]
      have hs : GET_SIZE t.mem (M64 - 8) = 0 := by unfold GET_SIZE; rw [ht1]; decide
      rw [hs]
      decide
    have hc8 : coalesce_left t 8 = t := by
      unfold coalesce_left
      have hfb : GET_FREE_BIT t.mem 8 = false := by
        unfold GET_FREE_BIT
        rw [ht8]
        have hmm : s.flGet 14 % M64 % 2 = 0 := by
          rw [M64_eq]
          omega
        simp [hmm]
      simp [hfb]
    have hfb2 : GET_FREE_BIT t.mem (M64 - 8) = true := by
      unfold GET_FREE_BIT; rw [ht1]; decide
    have hpb : GET_PREV_BLOCK_FREE_BIT t.mem (M64 - 8) = false := by
      unfold GET_PREV_BLOCK_FREE_BIT; rw [ht1]; decide
    calc coalesce t (M64 - 8)
        = coalesce_left (coalesce_left t (Header_get_next_header t.mem (M64 - 8))) (M64 - 8) := rfl
      _ = coalesce_left t (M64 - 8) := by rw [hnh, hc8]
      _ = t := by unfold coalesce_left; simp [hfb2, hpb]
  -- assemble
  have hfree : free s 0 =
      { s with
        mem := wr (wr (if s.flGet 14 % M64 ≠ 0
            then wr (wr (wr (wr s.mem (M64 - 8) 1) 0 1) 8 v8) (s.flGet 14 % M64) 0
            else wr (wr (wr s.mem (M64 - 8) 1) 0 1) 8 v8) 0 0) 8 (s.flGet 14 % M64),
        fl := s.fl.set 14 0 } := by
    unfold free
    simp only [e1, hA, hB, hC, hD, hE]
    apply hfin
    · rw [rd_wr, if_neg (by decide), rd_wr, if_neg (by decide)]
      split_ifs with hh
      · rw [rd_wr, if_neg (fun hx => h2 hx.symm)]
        exact hr3
      · exact hr3
    · rw [rd_wr, if_pos rfl]
      conv_rhs => rw [← Nat.mod_mod_of_dvd (s.flGet 14) (dvd_refl M64)]
  constructor
  · rw [hfree]
    show rd _ (M64 - 8) = 1
    rw [rd_wr, if_neg (by decide), rd_wr, if_neg (by decide)]
    split_ifs with hh
    · rw [rd_wr, if_neg (fun hx => h2 hx.symm)]
      exact hr3
    · exact hr3
  · rw [hfree]
    show (s.fl.set 14 0).getD 14 0 = 0
    rw [List.getD_eq_getElem?_getD, List.getElem?_set_self (by omega)]
    simp

end MM


/-! Claim C10: calloc. -/

namespace MM

/-- Witness for C8 at `stateC8`. -/
theorem C8_free_null_witness :
    rd (free stateC8 0).mem (M64 - 8) = 1 ∧ (free stateC8 0).flGet 14 = 0 :=
  C8_free_null stateC8 (by decide) (by decide) (by decide) (by decide)

/-- C10: `calloc(k, n)` behaves exactly as `malloc` of the 64-bit-wrapped
product followed, on success, by zeroing that many bytes of the returned
range; in particular, for the overflowing product `(2^63 + 1) · 2` it returns
a non-null pointer to a block whose capacity is smaller than the product. -/
theorem C10_calloc :
    (∀ fuel s nmemb size0,
      calloc fuel s nmemb size0 =
        (malloc fuel s (size0 * nmemb % M64)).elim none (fun r =>
          if r.2 ≠ 0 then
            some ({ r.1 with mem := mem_memset r.1.mem r.2 0 (size0 * nmemb % M64) }, r.2)
          else some (r.1, r.2))) ∧
    M64 ≤ (2 ^ 63 + 1) * 2 ∧
    calloc 5 stateInit (2 ^ 63 + 1) 2 = some (stateC10, 48) ∧
    GET_SIZE stateC10.mem 40 + 8 < (2 ^ 63 + 1) * 2 := by
  refine ⟨fun fuel s nmemb size0 => rfl, by decide, rfl, by decide⟩

end MM


/-! Claim C4: the fit-search policy. -/

namespace MM

/-- The search size of `Segregated_find_free_block` (computed with `≥`)
equals the effective payload size of the allocation path (computed with `>`). -/
theorem searchSize_eq (n : Nat) :
    (if align (wsub n 8) ≥ Payload_min_size then align (wsub n 8) else Payload_min_size) =
      requiredPayload n := by
  unfold requiredPayload
  dsimp only
  split_ifs <;> omega

theorem bucket_scan_first (s : MState) (j : Nat) (hj : j < 14)
    (hnz : s.flGet j % M64 ≠ 0) :
    ∀ d i, i ≤ j → j - i = d → (∀ k, i ≤ k → k < j → s.flGet k % M64 = 0) →
    bucket_scan s i (14 - i) = some (Payload_get_header (s.flGet j % M64)) := by
  intro d
  induction d with
  | zero =>
    intro i h1 h2 _
    have hij : i = j := by omega
    subst hij
    obtain ⟨l, hl⟩ : ∃ l, 14 - i = l + 1 := ⟨13 - i, by omega⟩
    rw [hl]
    unfold bucket_scan
    simp [hnz]
  | succ d ih =>
    intro i h1 h2 hz
    have hlt : i < j := by omega
    obtain ⟨l, hl⟩ : ∃ l, 14 - i = l + 1 := ⟨13 - i, by omega⟩
    have hl2 : l = 14 - (i + 1) := by omega
    rw [hl]
    unfold bucket_scan
    rw [if_neg (by simpa using hz i (le_refl i) hlt)]
    rw [hl2]
    exact ih (i + 1) (by omega) (by omega) (fun k hk1 hk2 => hz k (by omega) hk2)

theorem bucket_scan_none (s : MState) :
    ∀ d i, 14 - i = d → (∀ k, i ≤ k → k < 14 → s.flGet k % M64 = 0) →
    bucket_scan s i (14 - i) = none := by
  intro d
  induction d with
  | zero =>
    intro i h1 _
    rw [h1]
    rfl
  | succ d ih =>
    intro i h1 hz
    have hi : i < 14 := by omega
    rw [h1]
    unfold bucket_scan
    rw [if_neg (by simpa using hz i (le_refl i) hi)]
    have hl2 : d = 14 - (i + 1) := by omega
    rw [hl2]
    exact ih (i + 1) (by omega) (fun k hk1 hk2 => hz k (by omega) hk2)

theorem firstfit_chain (m : Mem) (n : Nat) :
    ∀ (ns : List Nat) (cur prev fuel : Nat), chainRep m prev cur ns →
    ns.length < fuel →
    (∀ p ∈ ns, GET_SIZE m (Payload_get_header p) + 8 < M64) →
    find_free_block_explicit_list_firstfit m n cur fuel = some (firstFitSpec m n ns) := by
  intro ns
  induction ns with
  | nil =>
    intro cur prev fuel hchain hfuel _
    obtain ⟨f, rfl⟩ : ∃ f, fuel = f + 1 := ⟨fuel - 1, by omega⟩
    have hcur : cur = 0 := hchain
    subst hcur
    rfl
  | cons p ps ih =>
    intro cur prev fuel hchain hfuel hsz
    obtain ⟨f, rfl⟩ : ∃ f, fuel = f + 1 := ⟨fuel - 1, by omega⟩
    obtain ⟨hcur, hp0, _hprev, hrest⟩ := hchain
    subst hcur
    unfold find_free_block_explicit_list_firstfit firstFitSpec
    rw [if_neg hp0]
    dsimp only
    have hb : GET_SIZE m (Payload_get_header cur) + 8 < M64 := hsz cur (by simp)
    have hmod : (GET_SIZE m (Payload_get_header cur) + Footer_size) % M64 =
        GET_SIZE m (Payload_get_header cur) + 8 := by
      unfold Footer_size
      exact Nat.mod_eq_of_lt hb
    rw [hmod]
    by_cases hfit : GET_SIZE m (Payload_get_header cur) + 8 ≥ n
    · rw [if_pos hfit, if_pos hfit]
    · rw [if_neg hfit, if_neg hfit]
      exact ih _ cur f hrest (by simpa using hfuel) (fun q hq => hsz q (by simp [hq]))

/-- C4: the fit search walks the exact-size buckets from
`size_class_index(need)` up to 13 and returns the head of the first
non-empty bucket without inspecting any block size; only when all those
buckets are empty does it scan bucket 14 front-to-back, returning the first
block whose payload size + 8 is at least the original request `n`; if that
also fails it reports no fit (null). -/
theorem C4_find_policy (s : MState) (n fuel : Nat) (ns : List Nat)
    (hchain : chainRep s.mem 0 (s.flGet 14 % M64) ns)
    (hfuel : ns.length < fuel)
    (hsz : ∀ p ∈ ns, GET_SIZE s.mem (Payload_get_header p) + 8 < M64) :
    (∀ i, Segregated_get_bucket (requiredPayload n) ≤ i → i < 14 →
      s.flGet i % M64 ≠ 0 →
      (∀ j, Segregated_get_bucket (requiredPayload n) ≤ j → j < i → s.flGet j % M64 = 0) →
      Segregated_find_free_block s n fuel = some (Payload_get_header (s.flGet i % M64))) ∧
    ((∀ j, Segregated_get_bucket (requiredPayload n) ≤ j → j < 14 → s.flGet j % M64 = 0) →
      Segregated_find_free_block s n fuel = some (firstFitSpec s.mem n ns)) := by
  constructor
  · intro i hi1 hi2 hnz hmin
    unfold Segregated_find_free_block
    dsimp only
    rw [searchSize_eq]
    rw [bucket_scan_first s i hi2 hnz (i - Segregated_get_bucket (requiredPayload n))
      (Segregated_get_bucket (requiredPayload n)) hi1 rfl hmin]
    rfl
  · intro hz
    unfold Segregated_find_free_block
    dsimp only
    rw [searchSize_eq]
    rw [bucket_scan_none s (14 - Segregated_get_bucket (requiredPayload n))
      (Segregated_get_bucket (requiredPayload n)) rfl hz]
    exact firstfit_chain s.mem n ns _ 0 fuel hchain hfuel hsz

/-- Witness for C4 on `stateC6` with request 5: bucket 0 is non-empty, so the
search returns its head's header without looking at sizes. -/
theorem C4_find_policy_witness :
    Segregated_find_free_block stateC6 5 3 =
      some (Payload_get_header (stateC6.flGet 0 % M64)) :=
  (C4_find_policy stateC6 5 3 [] (by unfold chainRep MState.flGet stateC6; decide)
    (by decide) (by decide)).1 0 (by decide) (by decide) (by decide)
    (fun j h1 h2 => absurd (lt_of_le_of_lt h1 h2) (by decide))

end MM

/-! Geometry of the block layout. -/

namespace MM

theorem blocksRep_split (m : Mem) (bs1 : List GB) :
    ∀ a pf bs2 brk, blocksRep m a pf (bs1 ++ bs2) brk ↔
      (blocksSeg m a pf bs1 ∧ blocksRep m (endAddr a bs1) (lastFree pf bs1) bs2 brk) := by
  induction bs1 with
  | nil =>
    intro a pf bs2 brk
    simp [blocksSeg, endAddr, lastFree]
  | cons b bs ih =>
    intro a pf bs2 brk
    simp only [List.cons_append, List.append_eq, blocksRep, blocksSeg, endAddr, lastFree, ih,
      and_assoc]

theorem blocksRep_lb (m : Mem) (bs : List GB) :
    ∀ a pf brk, blocksRep m a pf bs brk → a + 8 ≤ brk := by
  induction bs with
  | nil => intro a pf brk h; have := h.2; omega
  | cons b bs ih => intro a pf brk h; have := ih _ _ _ h.2.2.2.2; omega

theorem endAddr_ge (bs : List GB) : ∀ a, a ≤ endAddr a bs := by
  induction bs with
  | nil => intro a; exact le_refl a
  | cons b bs ih => intro a; have := ih (a + 16 + b.size); simp only [endAddr]; omega

theorem blocksSeg_end_mod (m : Mem) (bs : List GB) :
    ∀ a pf, blocksSeg m a pf bs → endAddr a bs % 16 = a % 16 := by
  induction bs with
  | nil => intro a pf _; rfl
  | cons b bs ih =>
    intro a pf h
    have h16 : b.size % 16 = 0 := h.2.1
    have := ih (a + 16 + b.size) b.free h.2.2.2.2
    simp only [endAddr] at *
    omega

theorem blocksRep_wr_low (m : Mem) (x v : Nat) (bs : List GB) :
    ∀ a pf brk, x < a → blocksRep m a pf bs brk →
      blocksRep (wr m x v) a pf bs brk := by
  induction bs with
  | nil =>
    intro a pf brk hx h
    refine ⟨?_, h.2⟩
    rw [rd_wr, if_neg (by omega)]
    exact h.1
  | cons b bs ih =>
    intro a pf brk hx h
    obtain ⟨h1, h2, h3, h4, h5⟩ := h
    refine ⟨?_, h2, h3, ?_, ih _ _ _ (by omega) h5⟩
    · rw [rd_wr, if_neg (by omega)]; exact h1
    · intro hf
      rw [rd_wr, if_neg (by omega)]
      exact h4 hf

theorem blocksSeg_wr_low (m : Mem) (x v : Nat) (bs : List GB) :
    ∀ a pf, x < a → blocksSeg m a pf bs → blocksSeg (wr m x v) a pf bs := by
  induction bs with
  | nil => intro a pf _ _; trivial
  | cons b bs ih =>
    intro a pf hx h
    obtain ⟨h1, h2, h3, h4, h5⟩ := h
    refine ⟨?_, h2, h3, ?_, ih _ _ (by omega) h5⟩
    · rw [rd_wr, if_neg (by omega)]; exact h1
    · intro hf
      rw [rd_wr, if_neg (by omega)]
      exact h4 hf

theorem blocksRep_wr_high (m : Mem) (x v : Nat) (bs : List GB) :
    ∀ a pf brk, brk ≤ x → blocksRep m a pf bs brk →
      blocksRep (wr m x v) a pf bs brk := by
  induction bs with
  | nil =>
    intro a pf brk hx h
    obtain ⟨h1, h2⟩ := h
    refine ⟨?_, h2⟩
    rw [rd_wr, if_neg (by omega)]
    exact h1
  | cons b bs ih =>
    intro a pf brk hx h
    obtain ⟨h1, h2, h3, h4, h5⟩ := h
    have hbound := blocksRep_lb m bs _ _ _ h5
    refine ⟨?_, h2, h3, ?_, ih _ _ _ hx h5⟩
    · rw [rd_wr, if_neg (by omega)]; exact h1
    · intro hf
      rw [rd_wr, if_neg (by omega)]
      exact h4 hf

theorem chainRep_wr (m : Mem) (x v : Nat) (ns : List Nat) :
    ∀ prev cur, chainRep m prev cur ns →
      (∀ p ∈ ns, x ≠ p ∧ x ≠ (p + 8) % M64) →
      chainRep (wr m x v) prev cur ns := by
  induction ns with
  | nil => intro prev cur h _; exact h
  | cons p ps ih =>
    intro prev cur h hx
    obtain ⟨h1, h2, h3, h4⟩ := h
    obtain ⟨hx1, hx2⟩ := hx p (by simp)
    refine ⟨h1, h2, ?_, ?_⟩
    · rw [rd_wr, if_neg (fun hc => hx1 hc.symm)]
      exact h3
    · rw [rd_wr, if_neg (fun hc => hx2 hc.symm)]
      exact ih _ _ h4 (fun q hq => hx q (by simp [hq]))

end MM
